import Mathlib

/-!
Verification of the `coasc` double-entry bookkeeping core
(`src/coasc/models.py`, `src/coasc/exceptions.py`).

Shallow embedding conventions:
* The database is a `Ledger`: the current rows of the `Ac`, `Transaction`
  and `Split` tables, as Lean lists.  Foreign keys are stored as row ids
  (`Nat`), exactly as in the relational schema; the implicit auto `id`
  primary key of `Split` is never read by any modelled operation and is
  omitted.  `Member` rows are only ever referenced through `Ac.mem`
  (`mem_id` in Django), so the member table itself is not modelled.
* `DecimalField(decimal_places=2)` amounts are exact two-decimal numbers;
  sums and comparisons of such values are exact, so amounts are modelled
  as integers (`Int`, think "cents").
* `DateField` values are modelled as `Nat` day ordinals; only `≤` on dates
  is used by the code.
* Fallible Python code (raising exceptions) is modelled with
  `Except Exc α`.  Django's `pre_save` signal receivers run synchronously
  before the row is written, and `transaction.atomic()` rolls every write
  of the block back when an exception escapes, so an `Except.error` result
  leaves the ledger unchanged and an `Except.ok` result carries the fully
  updated ledger.
* Django's `Sum(...)`/`Sum(..., filter=...)` aggregate returns SQL `NULL`
  (Python `None`) when no row contributes, hence `Option Int` with the
  `or Decimal(0)` coalescing written explicitly as `Option.getD _ 0`.
-/

/-- Account category (`Ac.CATEGORY_CHOICES`): `AS`, `LI`, `IN`, `EX`. -/
inductive Category
  | AS
  | LI
  | IN
  | EX
  deriving DecidableEq, Repr

/-- Account type (`Ac.TYPE_AC_CHOICES`): `P` (Personal) or `I` (Impersonal). -/
inductive TAc
  | P
  | I
  deriving DecidableEq, Repr

/-- Split side (`Split.TYPE_SPLIT_CHOICES`): `dr` (Debit) or `cr` (Credit). -/
inductive TSp
  | dr
  | cr
  deriving DecidableEq, Repr

/-- The exceptions of `src/coasc/exceptions.py` that the modelled code can
raise, together with Python's built-in `AttributeError` (raised by attribute
lookup on a missing attribute).  `AccountingEquationViolationError` carries
the signed difference it reports in its message.  `exceptions.py` defines no
`ZeroAmountError` (the test suite references one, but the class is absent),
so no such constructor exists here. -/
inductive Exc
  | attributeError (attr : String)
  | invalidAccount
  | categoryOnChildAccount
  | accountWithTransactionCannotBeParent
  | childAccountCannotBeParent
  | memberRequiredOnPersonalAc
  | memberOnImpersonalAc
  | transactionOnParentAc
  | accountingEquationViolation (difference : Int)
  | emptyTransaction
  | unbalancedTransaction
  deriving DecidableEq, Repr

/-- A row of the `Ac` table.  `p_ac` and `mem` are the stored foreign-key
ids (`p_ac_id`, `mem_id`); `cat` and `code` are nullable. -/
structure Ac where
  id : Nat
  name : String
  t_ac : TAc
  p_ac : Option Nat
  cat : Option Category
  mem : Option Nat
  code : Option String
  deriving DecidableEq, Repr

/-- A row of the `Transaction` table.  `created_at` is an auto-set
timestamp never read by any modelled operation and is omitted. -/
structure Transaction where
  id : Nat
  tx_date : Nat
  desc : String
  deriving DecidableEq, Repr

/-- A row of the `Split` table: `tx` and `ac` are the foreign-key ids. -/
structure Split where
  tx : Nat
  ac : Nat
  t_sp : TSp
  am : Int
  deriving DecidableEq, Repr

/-- The database state: the three tables the core reads and writes. -/
structure Ledger where
  acs : List Ac
  txs : List Transaction
  sps : List Split
  deriving DecidableEq, Repr

/-- Point lookup of an `Ac` row by primary key (Django FK dereference). -/
def acById (L : Ledger) (i : Nat) : Option Ac :=
  L.acs.find? (fun a => a.id == i)

/-- Point lookup of a `Transaction` row by primary key. -/
def txById (L : Ledger) (i : Nat) : Option Transaction :=
  L.txs.find? (fun t => t.id == i)

/-- The splits of one transaction: `transaction.split_set.all()`. -/
def txSplits (L : Ledger) (t : Transaction) : List Split :=
  L.sps.filter (fun s => s.tx == t.id)

/-- Existence of child accounts: `self.ac_set.exists()` (reverse side of the
self foreign key `Ac.p_ac`), a live query against the current table. -/
def hasChildren (L : Ledger) (a : Ac) : Bool :=
  L.acs.any (fun c => c.p_ac == some a.id)

/-- The property `Ac.is_parent`:
`self.cat is not None and self.p_ac is None and self.ac_set.exists()`. -/
def is_parent (L : Ledger) (a : Ac) : Bool :=
  a.cat.isSome && a.p_ac.isNone && hasChildren L a

/-- The property `Ac.is_standalone`:
`self.cat is not None and self.p_ac is None and not self.ac_set.exists()`. -/
def is_standalone (L : Ledger) (a : Ac) : Bool :=
  a.cat.isSome && a.p_ac.isNone && !(hasChildren L a)

/-- The property `Ac.is_child`:
`self.p_ac is not None and self.cat is None` (no database access). -/
def is_child (a : Ac) : Bool :=
  a.p_ac.isSome && a.cat.isNone

/-- Django `Sum("am", filter=Q(t_sp=side))` over a list of splits, and
equally `Sum(Case(When(t_sp=side, then=F("am"))))` (non-matching rows yield
`NULL`, which `Sum` ignores): `none` when no split of `side` is present,
otherwise the sum of their amounts. -/
def sumSide (sps : List Split) (side : TSp) : Option Int :=
  let l := sps.filter (fun s => s.t_sp == side)
  if l.isEmpty then none else some ((l.map Split.am).sum)

/-- The split queryset `Ac.bal` starts from: for a parent account
`Split.objects.filter(ac__p_ac=self)` (the splits of all accounts whose
parent is `self`), otherwise `self.split_set.all()`. -/
def acSps (L : Ledger) (a : Ac) : List Split :=
  if is_parent L a then
    L.sps.filter (fun s =>
      match acById L s.ac with
      | some sa => sa.p_ac == some a.id
      | none => false)
  else
    L.sps.filter (fun s => s.ac == a.id)

/-- The date-range narrowing in `Ac.bal`:
`sps.filter(tx__tx_date__gte=start_date)` then
`sps.filter(tx__tx_date__lte=end_date)`, each only when the bound is given;
the join through `tx` drops a split whose transaction row is absent (which
foreign-key integrity rules out). -/
def dateFilter (L : Ledger) (start_date end_date : Option Nat)
    (sps : List Split) : List Split :=
  let sps1 :=
    match start_date with
    | some d => sps.filter (fun s =>
        match txById L s.tx with
        | some tx => decide (d ≤ tx.tx_date)
        | none => false)
    | none => sps
  match end_date with
  | some d => sps1.filter (fun s =>
      match txById L s.tx with
      | some tx => decide (tx.tx_date ≤ d)
      | none => false)
  | none => sps1

/-- The category `Ac.bal` uses for the sign convention:
`self.p_ac.cat if self.is_child else self.cat` (a child inherits its
parent's category; `none` on a dangling parent id, which foreign-key
integrity rules out). -/
def acCat (L : Ledger) (a : Ac) : Option Category :=
  if is_child a then
    match a.p_ac with
    | some pid =>
      match acById L pid with
      | some p => p.cat
      | none => none
    | none => none
  else a.cat

/-- The dictionary returned by `Ac.bal`. -/
structure BalRec where
  net_balance : Int
  net_debit : Int
  net_credit : Int
  total_debit : Int
  total_credit : Int
  deriving DecidableEq, Repr

/-- The method `Ac.bal(start_date, end_date)`, translated clause by clause:
queryset selection, date narrowing, the two coalesced side sums, and the
two sign-convention branches on the (possibly inherited) category.  When
`ac_cat` is neither branch (an account with neither own nor inherited
category) the Python body reads the never-assigned local `net_balance` and
raises `UnboundLocalError`; that failure is `none`. -/
def bal (L : Ledger) (a : Ac) (start_date end_date : Option Nat) :
    Option BalRec :=
  let sps := dateFilter L start_date end_date (acSps L a)
  let total_debit := (sumSide sps TSp.dr).getD 0
  let total_credit := (sumSide sps TSp.cr).getD 0
  match acCat L a with
  | some Category.AS | some Category.EX =>
    let net_balance := total_debit - total_credit
    some ⟨net_balance, max net_balance 0, max (-net_balance) 0,
      total_debit, total_credit⟩
  | some Category.LI | some Category.IN =>
    let net_balance := total_credit - total_debit
    some ⟨net_balance, max (-net_balance) 0, max net_balance 0,
      total_debit, total_credit⟩
  | none => none

/-- The local `total_debit` of `Ac.validate_accounting_equation`:
`Split.objects.aggregate(total_debit=Sum("am", filter=Q(t_sp="dr")))`
coalesced with `or Decimal("0")`. -/
def ledger_total_debit (L : Ledger) : Int :=
  (sumSide L.sps TSp.dr).getD 0

/-- The local `total_credit` of `Ac.validate_accounting_equation`. -/
def ledger_total_credit (L : Ledger) : Int :=
  (sumSide L.sps TSp.cr).getD 0

/-- The classmethod `Ac.validate_accounting_equation`: global side sums over
every `Split` row, coalesced to `0`, raising
`AccountingEquationViolationError` (message carrying the difference) when
`total_debit - total_credit` is nonzero, else returning `True`. -/
def validate_accounting_equation (L : Ledger) : Except Exc Bool :=
  let difference := ledger_total_debit L - ledger_total_credit L
  if difference ≠ 0 then
    Except.error (Exc.accountingEquationViolation difference)
  else
    Except.ok true

/-- The method `Transaction.validate_transaction`: per-side sums of this
transaction's splits (each `None` when that side has no splits),
`EmptyTransactionError` when both are `None`, `UnbalancedTransactionError`
when the two optional values differ (which also covers a single present
side), else `True`. -/
def validate_transaction (L : Ledger) (t : Transaction) : Except Exc Bool :=
  let total_debit := sumSide (txSplits L t) TSp.dr
  let total_credit := sumSide (txSplits L t) TSp.cr
  if total_debit = none ∧ total_credit = none then
    Except.error Exc.emptyTransaction
  else if total_debit ≠ total_credit then
    Except.error Exc.unbalancedTransaction
  else
    Except.ok true

/-- Attribute lookup of `is_root` on an `Ac` instance, as evaluated by
`raise_exceptions_ac`.  The `Ac` class defines `is_parent`, `is_standalone`
and `is_child`, but no attribute or property named `is_root`, so this
lookup raises Python's `AttributeError`. -/
def is_root_lookup (_L : Ledger) (_a : Ac) : Except Exc Bool :=
  Except.error (Exc.attributeError "is_root")

/-- The `pre_save` receiver `raise_exceptions_ac`, translated statement by
statement.  Its first condition evaluates `ac_instance.is_root`, which is
an `AttributeError` (see `is_root_lookup`); the remaining statements are
the source's named-rule checks, kept faithfully even though control can
never reach them. -/
def raise_exceptions_ac (L : Ledger) (ac_instance : Ac) : Except Exc Unit := do
  let is_root ← is_root_lookup L ac_instance
  if !is_root && !(is_child ac_instance) then
    throw Exc.invalidAccount
  if is_child ac_instance then
    if ac_instance.cat.isSome then
      throw Exc.categoryOnChildAccount
    else if (match ac_instance.p_ac with
             | some pid => L.sps.any (fun s => s.ac == pid)
             | none => false) then
      throw Exc.accountWithTransactionCannotBeParent
    else if (match ac_instance.p_ac with
             | some pid =>
               match acById L pid with
               | some p => is_child p
               | none => false
             | none => false) then
      throw Exc.childAccountCannotBeParent
  if ac_instance.t_ac == TAc.P && ac_instance.mem.isNone then
    throw Exc.memberRequiredOnPersonalAc
  if ac_instance.t_ac == TAc.I && ac_instance.mem.isSome then
    throw Exc.memberOnImpersonalAc
  pure ()

/-- The `pre_save` receiver `raise_exceptions_split`:
`if sp_instance.ac.is_parent: raise TransactionOnParentAcError(...)`.
This is the only validation run before a `Split` row is written; the
dereference `sp_instance.ac` cannot dangle under foreign-key integrity. -/
def raise_exceptions_split (L : Ledger) (sp_instance : Split) :
    Except Exc Unit :=
  match acById L sp_instance.ac with
  | some a =>
    if is_parent L a then Except.error Exc.transactionOnParentAc
    else Except.ok ()
  | none => Except.ok ()

/-- A fresh primary key for the `Transaction` auto-increment column. -/
def freshTxId (L : Ledger) : Nat :=
  (L.txs.map Transaction.id).foldr max 0 + 1

/-- The reversing split built inside `Transaction.revert_transaction`:
`t_sp = Split.DEBIT if sp.t_sp == Split.CREDIT else Split.CREDIT`, same
account and amount, attached to the new transaction. -/
def mirror_split (newTxId : Nat) (s : Split) : Split :=
  ⟨newTxId, s.ac, if s.t_sp == TSp.cr then TSp.dr else TSp.cr, s.am⟩

/-- The loop body of `revert_transaction`: each `Split.objects.create`
first runs the `pre_save` receiver `raise_exceptions_split` against the
current state, then writes the row; the first failure aborts (and, through
`transaction.atomic()`, rolls back) the whole block. -/
def createSplits (L : Ledger) (orig : List Split) (newTxId : Nat) :
    Except Exc Ledger :=
  match orig with
  | [] => Except.ok L
  | s :: rest =>
    let ns := mirror_split newTxId s
    match raise_exceptions_split L ns with
    | Except.error e => Except.error e
    | Except.ok _ =>
      createSplits { L with sps := L.sps ++ [ns] } rest newTxId

/-- The method `Transaction.revert_transaction`, run at date `today`
(`tx_date` defaults to `timezone.now`): inside `transaction.atomic()` it
creates a new transaction `Revert: <desc>` and one side-swapped copy of
each of this transaction's splits.  An error result models the atomic
rollback: no row of the block survives, the ledger is unchanged. -/
def revert_transaction (L : Ledger) (t : Transaction) (today : Nat) :
    Except Exc (Ledger × Transaction) :=
  let revert_tx : Transaction := ⟨freshTxId L, today, "Revert: " ++ t.desc⟩
  let L1 : Ledger := { L with txs := L.txs ++ [revert_tx] }
  match createSplits L1 (txSplits L t) revert_tx.id with
  | Except.ok L2 => Except.ok (L2, revert_tx)
  | Except.error e => Except.error e

/-- Spec-side definition (refinement target), following the spec's words:
"for Asset/Expense categories, net = debit − credit (debit-normal); for
Liability/Income, net = credit − debit (credit-normal). `net_debit` /
`net_credit` are the positive and negative parts of `net_balance`
respectively: `net_debit = max(net_balance, 0)`,
`net_credit = max(−net_balance, 0)` for debit-normal categories, and
mirrored for credit-normal categories." -/
def specBal (c : Category) (total_debit total_credit : Int) : BalRec :=
  match c with
  | Category.AS | Category.EX =>
    let nb := total_debit - total_credit
    ⟨nb, max nb 0, max (-nb) 0, total_debit, total_credit⟩
  | Category.LI | Category.IN =>
    let nb := total_credit - total_debit
    ⟨nb, max (-nb) 0, max nb 0, total_debit, total_credit⟩

/-- Spec-side definition: componentwise sum of two `bal` dictionaries, the
reading of "sum of its children's balances" as summing every field. -/
def addBal (b1 b2 : BalRec) : BalRec :=
  ⟨b1.net_balance + b2.net_balance, b1.net_debit + b2.net_debit,
    b1.net_credit + b2.net_credit, b1.total_debit + b2.total_debit,
    b1.total_credit + b2.total_credit⟩

/-- Spec-side definition: the side opposite to a given split side. -/
def opposite (t : TSp) : TSp :=
  match t with
  | TSp.dr => TSp.cr
  | TSp.cr => TSp.dr

/-- Spec-side definition: the ledger as it was before transaction `t` was
applied, i.e. with every split of `t` removed (the "pre-T" state; the
transaction row itself carries no amounts). -/
def removeTx (L : Ledger) (t : Transaction) : Ledger :=
  { L with sps := L.sps.filter (fun s => !(s.tx == t.id)) }

/-- Plain integer sum of the amounts of the splits of one side of a list
(the arithmetic reading of "sum of debit/credit split amounts"; it agrees
with the coalesced Django aggregate, see `sumSide_getD`). -/
def sideSum (sps : List Split) (side : TSp) : Int :=
  ((sps.filter (fun s => s.t_sp == side)).map Split.am).sum

/-- Weighted sum over a list of splits; proof-side device used to move
between the various filtered sums. -/
def wsum (w : Split → Int) (l : List Split) : Int :=
  (l.map w).sum

/-- Weight selecting the amount of splits of one side. -/
def wSide (side : TSp) (s : Split) : Int :=
  if s.t_sp == side then s.am else 0

/-- Weight selecting the amount of splits of one side on one account. -/
def wAcSide (i : Nat) (side : TSp) (s : Split) : Int :=
  if s.ac == i then wSide side s else 0

/-- The combined date-range predicate of `dateFilter`, as a single
per-split condition (see `dateFilter_eq_filter`): both bounds are
inclusive when given, and a missing bound keeps everything. -/
def dKeep (L : Ledger) (start_date end_date : Option Nat) (s : Split) : Bool :=
  (match start_date with
   | some d =>
     match txById L s.tx with
     | some tx => decide (d ≤ tx.tx_date)
     | none => false
   | none => true) &&
  (match end_date with
   | some d =>
     match txById L s.tx with
     | some tx => decide (tx.tx_date ≤ d)
     | none => false
   | none => true)

/-- Concrete instance: the spec's scenario account
`"single"` (Asset, code `"1"`). -/
def acSingle : Ac :=
  ⟨1, "single", TAc.I, none, some Category.AS, none, some "1"⟩

/-- Concrete instance: a transaction dated day 10. -/
def txOne : Transaction :=
  ⟨1, 10, "transaction1"⟩

/-- Concrete instance: a second transaction, with no splits anywhere. -/
def txTwo : Transaction :=
  ⟨2, 10, "transaction2"⟩

/-- Concrete instance: the spec's scenario ledger — `acSingle` with splits
debit 100, debit 50 and credit 30, all on `txOne`. -/
def ledgerSingle : Ledger :=
  ⟨[acSingle], [txOne], [⟨1, 1, TSp.dr, 100⟩, ⟨1, 1, TSp.dr, 50⟩,
    ⟨1, 1, TSp.cr, 30⟩]⟩

/-- Concrete instance: `acSingle` with a balanced transaction
(debit 100 / credit 100 on `txOne`). -/
def ledgerBalanced : Ledger :=
  ⟨[acSingle], [txOne], [⟨1, 1, TSp.dr, 100⟩, ⟨1, 1, TSp.cr, 100⟩]⟩

/-- Concrete instance: `acSingle` with a single debit split of 100 and no
credit split (the spec's one-sided-transaction scenario). -/
def ledgerOneSide : Ledger :=
  ⟨[acSingle], [txOne], [⟨1, 1, TSp.dr, 100⟩]⟩

/-- Concrete instance: an account violating the root/child shape invariant
(neither category nor parent). -/
def orphanAc : Ac :=
  ⟨1, "orphan", TAc.I, none, none, none, some "0"⟩

/-- Concrete instance: an empty database. -/
def emptyLedger : Ledger :=
  ⟨[], [], []⟩

/-- Concrete instance: a root Asset account with two children. -/
def acPar : Ac :=
  ⟨1, "parent", TAc.I, none, some Category.AS, none, some "2"⟩

/-- Concrete instance: first child of `acPar` (no category of its own). -/
def acChild1 : Ac :=
  ⟨2, "child1", TAc.I, some 1, none, none, some "2.1"⟩

/-- Concrete instance: second child of `acPar`. -/
def acChild2 : Ac :=
  ⟨3, "child2", TAc.I, some 1, none, none, some "2.2"⟩

/-- Concrete instance: `acPar` with children `acChild1` (debit 10) and
`acChild2` (credit 10) on `txOne`. -/
def ledgerPar : Ledger :=
  ⟨[acPar, acChild1, acChild2], [txOne],
    [⟨1, 2, TSp.dr, 10⟩, ⟨1, 3, TSp.cr, 10⟩]⟩

/-- Concrete instance: an attempted new child account nested under
`acChild1`, which already holds a split in `ledgerPar`. -/
def acNewChild : Ac :=
  ⟨4, "newchild", TAc.I, some 2, none, none, some "2.1.1"⟩

/-- Concrete instance: two standalone root accounts for the revert
scenario. -/
def acRevA : Ac :=
  ⟨1, "a", TAc.I, none, some Category.AS, none, some "1"⟩

/-- Concrete instance: credit-side account of the revert scenario. -/
def acRevB : Ac :=
  ⟨2, "b", TAc.I, none, some Category.LI, none, some "2"⟩

/-- Concrete instance: the transaction to be reverted (debit 100 on
`acRevA`, credit 100 on `acRevB`). -/
def txOrig : Transaction :=
  ⟨1, 10, "orig"⟩

/-- Concrete instance: the revert-scenario ledger before reverting. -/
def ledgerRev : Ledger :=
  ⟨[acRevA, acRevB], [txOrig], [⟨1, 1, TSp.dr, 100⟩, ⟨1, 2, TSp.cr, 100⟩]⟩

/-- Concrete instance: `ledgerRev` after `revert_transaction` on `txOrig`
at day 5: a new transaction 2 whose splits mirror the original ones. -/
def ledgerRevPost : Ledger :=
  ⟨[acRevA, acRevB], [txOrig, ⟨2, 5, "Revert: orig"⟩],
    [⟨1, 1, TSp.dr, 100⟩, ⟨1, 2, TSp.cr, 100⟩,
     ⟨2, 1, TSp.cr, 100⟩, ⟨2, 2, TSp.dr, 100⟩]⟩

/-! Helper lemmas about the aggregates. -/

/-- The Django aggregate is `none` exactly when no split of the side is
present. -/
theorem sumSide_eq_none {sps : List Split} {side : TSp} :
    sumSide sps side = none ↔ sps.filter (fun s => s.t_sp == side) = [] := by
  simp only [sumSide]
  constructor
  · intro h
    by_cases he : (sps.filter (fun s => s.t_sp == side)).isEmpty
    · exact List.isEmpty_iff.mp he
    · simp [he] at h
  · intro h
    simp [h]

/-- On a side with at least one split, the Django aggregate is the plain
sum. -/
theorem sumSide_eq_some {sps : List Split} {side : TSp}
    (h : sps.filter (fun s => s.t_sp == side) ≠ []) :
    sumSide sps side = some (sideSum sps side) := by
  simp only [sumSide, sideSum]
  have he : (sps.filter (fun s => s.t_sp == side)).isEmpty = false := by
    cases hh : (sps.filter (fun s => s.t_sp == side)).isEmpty
    · rfl
    · exact absurd (List.isEmpty_iff.mp hh) h
  simp [he]

/-- Coalescing the Django aggregate with `0` gives the plain sum. -/
theorem sumSide_getD (sps : List Split) (side : TSp) :
    (sumSide sps side).getD 0 = sideSum sps side := by
  by_cases h : sps.filter (fun s => s.t_sp == side) = []
  · rw [sumSide_eq_none.mpr h]
    simp [sideSum, h]
  · rw [sumSide_eq_some h]
    rfl

/-! C1, C2 — the save-time account validator. -/

/-- C2: saving any `Ac` instance evaluates `ac_instance.is_root` in the
pre-save hook, but `Ac` defines no attribute named `is_root`, so every
account save — whatever the instance and whatever the database state —
raises `AttributeError` before any domain rule is checked or any account
is persisted. -/
theorem c2_every_account_save_raises_attribute_error
    (L : Ledger) (a : Ac) :
    raise_exceptions_ac L a = Except.error (Exc.attributeError "is_root") :=
  rfl

/-- C1 fails on the code: saving an account that violates the root/child
shape invariant (here `orphanAc`, with neither category nor parent) does
not fail with the specific `InvalidAccountError`; it fails with the
generic `AttributeError` raised by the dangling `is_root` lookup. -/
theorem c1_violation_raises_generic_attribute_error :
    raise_exceptions_ac emptyLedger orphanAc
        = Except.error (Exc.attributeError "is_root") ∧
      Exc.attributeError "is_root" ≠ Exc.invalidAccount := by
  exact ⟨rfl, by decide⟩

/-! C3 — zero/negative split amounts. -/

/-- C3 fails on the code: the only write-time validation of a `Split` is
`raise_exceptions_split`, which never inspects the amount (and
`exceptions.py` defines no `ZeroAmountError` at all), so a split of amount
`0` — and one of negative amount — on a standalone account passes
validation and is persisted. -/
theorem c3_zero_amount_split_passes_validation :
    raise_exceptions_split ledgerSingle ⟨1, 1, TSp.cr, 0⟩ = Except.ok () ∧
      (⟨1, 1, TSp.cr, 0⟩ : Split).am = 0 ∧
      raise_exceptions_split ledgerSingle ⟨1, 1, TSp.dr, -5⟩ = Except.ok () ∧
      (⟨1, 1, TSp.dr, -5⟩ : Split).am < 0 := by
  refine ⟨rfl, rfl, rfl, by decide⟩

/-! C9 — mutual exclusivity of splits and children. -/

/-- C9: the split-side check does fire — a split targeting `acPar` (which
has children in `ledgerPar`) fails with `TransactionOnParentAcError`
before the insert — but the account-side check is unreachable: creating a
child under `acChild1`, which already holds a split, fails with the
generic `AttributeError` of the `is_root` lookup instead of the claimed
`AccountWithTransactionCannotBeParentError`. -/
theorem c9_split_side_fires_account_side_crashes :
    raise_exceptions_split ledgerPar ⟨1, 1, TSp.dr, 100⟩
        = Except.error Exc.transactionOnParentAc ∧
      raise_exceptions_ac ledgerPar acNewChild
        = Except.error (Exc.attributeError "is_root") ∧
      Exc.attributeError "is_root"
        ≠ Exc.accountWithTransactionCannotBeParent := by
  refine ⟨rfl, rfl, by decide⟩

/-! C4 — the global accounting equation. -/

/-- C4: `validate_accounting_equation` returns `True` when the global
debit and credit sums agree, and otherwise raises
`AccountingEquationViolationError` carrying the signed difference
(total debits minus total credits); hence it raises exactly when the two
sums differ. -/
theorem c4_accounting_equation (L : Ledger) :
    (ledger_total_debit L = ledger_total_credit L →
      validate_accounting_equation L = Except.ok true) ∧
    (ledger_total_debit L ≠ ledger_total_credit L →
      validate_accounting_equation L
        = Except.error (Exc.accountingEquationViolation
            (ledger_total_debit L - ledger_total_credit L))) := by
  constructor
  · intro h
    simp [validate_accounting_equation, h]
  · intro h
    have hd : ledger_total_debit L - ledger_total_credit L ≠ 0 :=
      sub_ne_zero.mpr h
    simp [validate_accounting_equation, hd]

/-- Witness for C4 at concrete ledgers: `ledgerPar` is balanced
(10 debit vs 10 credit) and `ledgerSingle` is not (150 vs 30, signed
difference 120). -/
theorem c4_accounting_equation_witness :
    validate_accounting_equation ledgerPar = Except.ok true ∧
      validate_accounting_equation ledgerSingle
        = Except.error (Exc.accountingEquationViolation 120) := by
  refine ⟨(c4_accounting_equation ledgerPar).1 (by decide), ?_⟩
  have h := (c4_accounting_equation ledgerSingle).2 (by decide)
  exact h

/-! C5 — per-transaction validation. -/

/-- C5: `validate_transaction` raises `EmptyTransactionError` when the
transaction has no splits, raises `UnbalancedTransactionError` whenever
the sum of its debit split amounts differs from the sum of its credit
split amounts (in particular when only one side has splits), and returns
`True` when both sides are present and their sums agree. -/
theorem c5_validate_transaction (L : Ledger) (t : Transaction) :
    (txSplits L t = [] →
      validate_transaction L t = Except.error Exc.emptyTransaction) ∧
    (sideSum (txSplits L t) TSp.dr ≠ sideSum (txSplits L t) TSp.cr →
      validate_transaction L t = Except.error Exc.unbalancedTransaction) ∧
    ((txSplits L t).filter (fun s => s.t_sp == TSp.dr) ≠ [] →
      (txSplits L t).filter (fun s => s.t_sp == TSp.cr) ≠ [] →
      sideSum (txSplits L t) TSp.dr = sideSum (txSplits L t) TSp.cr →
      validate_transaction L t = Except.ok true) := by
  refine ⟨?_, ?_, ?_⟩
  · intro h
    simp [validate_transaction, h, sumSide]
  · intro h
    by_cases hd : (txSplits L t).filter (fun s => s.t_sp == TSp.dr) = []
    · by_cases hc : (txSplits L t).filter (fun s => s.t_sp == TSp.cr) = []
      · exact absurd (by simp [sideSum, hd, hc]) h
      · have hA := sumSide_eq_none.mpr hd
        have hB := sumSide_eq_some hc
        simp [validate_transaction, hA, hB]
    · have hA := sumSide_eq_some hd
      by_cases hc : (txSplits L t).filter (fun s => s.t_sp == TSp.cr) = []
      · have hB := sumSide_eq_none.mpr hc
        simp [validate_transaction, hA, hB]
      · have hB := sumSide_eq_some hc
        simp [validate_transaction, hA, hB, h]
  · intro hd hc heq
    have hA := sumSide_eq_some hd
    have hB := sumSide_eq_some hc
    simp [validate_transaction, hA, hB, heq]

/-- Witness for C5 at concrete transactions: a split-less transaction, the
one-debit-100-no-credit transaction of the spec scenario, and a balanced
one. -/
theorem c5_validate_transaction_witness :
    validate_transaction ledgerSingle txTwo
        = Except.error Exc.emptyTransaction ∧
      validate_transaction ledgerOneSide txOne
        = Except.error Exc.unbalancedTransaction ∧
      validate_transaction ledgerBalanced txOne = Except.ok true :=
  ⟨(c5_validate_transaction ledgerSingle txTwo).1 (by decide),
    (c5_validate_transaction ledgerOneSide txOne).2.1 (by decide),
    (c5_validate_transaction ledgerBalanced txOne).2.2 (by decide)
      (by decide) (by decide)⟩

/-! C10 — derived classification. -/

/-- C10: for an account satisfying the stored-shape invariant (root:
category set and parent null, or child: parent set and category null),
exactly one of the derived classifications holds, and each agrees with
(parent-null, category-set, has-children) at query time: a root with a
child is a parent, a root without is standalone, and anything with a
parent is a child.  The classifications are functions of the current
ledger, recomputed on each query. -/
theorem c10_classification_trichotomy (L : Ledger) (a : Ac)
    (h : (a.cat.isSome && a.p_ac.isNone) = true ∨
      (a.p_ac.isSome && a.cat.isNone) = true) :
    ((is_parent L a).toNat + (is_standalone L a).toNat
        + (is_child a).toNat = 1) ∧
      (a.p_ac = none → hasChildren L a = true → is_parent L a = true) ∧
      (a.p_ac = none → hasChildren L a = false →
        is_standalone L a = true) ∧
      (a.p_ac.isSome = true → is_child a = true) := by
  rcases h with h | h
  · rw [Bool.and_eq_true] at h
    obtain ⟨hc1, hp1⟩ := h
    have hp : a.p_ac = none := Option.isNone_iff_eq_none.mp hp1
    refine ⟨?_, ?_, ?_, ?_⟩
    · cases hch : hasChildren L a <;>
        simp [is_parent, is_standalone, is_child, hc1, hp, hch]
    · intro _ hch
      simp [is_parent, hc1, hp, hch]
    · intro _ hch
      simp [is_standalone, hc1, hp, hch]
    · intro hs
      rw [hp] at hs
      simp at hs
  · rw [Bool.and_eq_true] at h
    obtain ⟨hp1, hc1⟩ := h
    have hcat : a.cat = none := Option.isNone_iff_eq_none.mp hc1
    refine ⟨?_, ?_, ?_, ?_⟩
    · simp [is_parent, is_standalone, is_child, hcat, hp1]
    · intro hp
      rw [hp] at hp1
      simp at hp1
    · intro hp
      rw [hp] at hp1
      simp at hp1
    · intro _
      simp [is_child, hp1, hcat]

/-- Witness for C10 at the root-with-children account `acPar` of
`ledgerPar`. -/
theorem c10_classification_trichotomy_witness :
    ((acPar.cat.isSome && acPar.p_ac.isNone) = true ∨
        (acPar.p_ac.isSome && acPar.cat.isNone) = true) ∧
      (((is_parent ledgerPar acPar).toNat
          + (is_standalone ledgerPar acPar).toNat
          + (is_child acPar).toNat = 1) ∧
        (acPar.p_ac = none → hasChildren ledgerPar acPar = true →
          is_parent ledgerPar acPar = true) ∧
        (acPar.p_ac = none → hasChildren ledgerPar acPar = false →
          is_standalone ledgerPar acPar = true) ∧
        (acPar.p_ac.isSome = true → is_child acPar = true)) :=
  ⟨Or.inl (by decide),
    c10_classification_trichotomy ledgerPar acPar (Or.inl (by decide))⟩

/-! C6 — the balance sign convention. -/

/-- C6: for every account with a category — its own, or for a child the
one inherited from its parent — `bal` returns exactly the record built by
the spec's sign convention `specBal` from the aggregated debit and credit
totals of the selected, date-filtered splits: net = debit − credit with
`net_debit`/`net_credit` its positive/negative parts for Asset/Expense,
and the mirrored credit-normal form for Liability/Income. -/
theorem c6_balance_sign_convention (L : Ledger) (a : Ac) (c : Category)
    (h : acCat L a = some c) (sd ed : Option Nat) :
    bal L a sd ed = some (specBal c
      (sideSum (dateFilter L sd ed (acSps L a)) TSp.dr)
      (sideSum (dateFilter L sd ed (acSps L a)) TSp.cr)) := by
  cases c <;> simp [bal, specBal, h, sumSide_getD]

/-- Witness for C6: the spec's scenario — Asset account `"single"` with
splits debit 100, debit 50 and credit 30 has balance
`{net_balance: 120, net_debit: 120, net_credit: 0, total_debit: 150,
total_credit: 30}`. -/
theorem c6_balance_sign_convention_witness :
    acCat ledgerSingle acSingle = some Category.AS ∧
      bal ledgerSingle acSingle none none
        = some ⟨120, 120, 0, 150, 30⟩ := by
  refine ⟨by decide, ?_⟩
  have h := c6_balance_sign_convention ledgerSingle acSingle Category.AS
    (by decide) none none
  rw [h]
  rfl

/-! Weighted-sum toolkit used for the aggregation claims C7 and C8. -/

/-- Unfolding `wsum` over a cons cell. -/
theorem wsum_cons (w : Split → Int) (s : Split) (l : List Split) :
    wsum w (s :: l) = w s + wsum w l := by
  simp [wsum]

/-- `wsum` distributes over append. -/
theorem wsum_append (w : Split → Int) (l1 l2 : List Split) :
    wsum w (l1 ++ l2) = wsum w l1 + wsum w l2 := by
  simp [wsum]

/-- A filtered mapped sum is a weighted sum with an indicator weight. -/
theorem filter_map_sum (p : Split → Bool) (w : Split → Int) :
    ∀ l : List Split,
      ((l.filter p).map w).sum = wsum (fun s => if p s then w s else 0) l := by
  intro l
  induction l with
  | nil => rfl
  | cons s l ih =>
    cases hp : p s <;>
      simp [List.filter_cons, hp, wsum_cons, ih]

/-- A side sum is a weighted sum. -/
theorem sideSum_eq_wsum (l : List Split) (side : TSp) :
    sideSum l side = wsum (wSide side) l := by
  rw [sideSum, filter_map_sum]
  rfl

/-- A side sum over an account-filtered list is a weighted sum over the
unfiltered list. -/
theorem sideSum_filter_ac (l : List Split) (i : Nat) (side : TSp) :
    sideSum (l.filter (fun s => s.ac == i)) side = wsum (wAcSide i side) l := by
  rw [sideSum_eq_wsum, wsum, filter_map_sum]
  rfl

/-- Splitting a weighted sum along an arbitrary predicate. -/
theorem wsum_split_pred (q : Split → Bool) (w : Split → Int) :
    ∀ l : List Split,
      wsum w l = wsum w (l.filter q) + wsum w (l.filter (fun s => !(q s))) := by
  intro l
  induction l with
  | nil => simp [wsum]
  | cons s l ih =>
    cases hq : q s <;>
      simp [List.filter_cons, hq, wsum_cons, ih] <;> omega

/-- Sums of pointwise sums of integer-valued maps. -/
theorem sum_map_add {α : Type _} (l : List α) (f g : α → Int) :
    (l.map (fun c => f c + g c)).sum = (l.map f).sum + (l.map g).sum := by
  induction l with
  | nil => simp
  | cons c l ih => simp [ih]; omega

/-- Sums of pointwise differences of integer-valued maps. -/
theorem sum_map_sub {α : Type _} (l : List α) (f g : α → Int) :
    (l.map (fun c => f c - g c)).sum = (l.map f).sum - (l.map g).sum := by
  induction l with
  | nil => simp
  | cons c l ih => simp [ih]; omega

/-- Over a list of accounts with pairwise distinct ids, the sum of the
indicator terms selecting one id is a single indicator. -/
theorem sum_delta_nodup (i : Nat) (v : Int) :
    ∀ cs : List Ac, (cs.map Ac.id).Nodup →
      (cs.map (fun c => if i = c.id then v else 0)).sum
        = if ∃ c ∈ cs, i = c.id then v else 0 := by
  intro cs
  induction cs with
  | nil => intro _; simp
  | cons c cs ih =>
    intro hnd
    rw [List.map_cons] at hnd
    obtain ⟨hnotmem, hnd2⟩ := List.nodup_cons.mp hnd
    rw [List.map_cons, List.sum_cons, ih hnd2]
    by_cases hic : i = c.id
    · have hz : (if ∃ c2 ∈ cs, i = c2.id then v else 0) = 0 := by
        rw [if_neg]
        rintro ⟨c2, hc2, he⟩
        apply hnotmem
        have hcc : c.id = c2.id := hic.symm.trans he
        rw [hcc]
        exact List.mem_map_of_mem Ac.id hc2
      rw [hz, if_pos hic, if_pos ⟨c, List.mem_cons_self c cs, hic⟩]
      omega
    · have hiff : (∃ c2 ∈ c :: cs, i = c2.id) ↔ (∃ c2 ∈ cs, i = c2.id) := by
        constructor
        · rintro ⟨c2, hc2, he⟩
          rcases List.mem_cons.mp hc2 with h | h
          · exact absurd (h ▸ he) hic
          · exact ⟨c2, h, he⟩
        · rintro ⟨c2, hc2, he⟩
          exact ⟨c2, List.mem_cons_of_mem c hc2, he⟩
      rw [if_neg hic]
      by_cases hex : ∃ c2 ∈ cs, i = c2.id
      · rw [if_pos hex, if_pos (hiff.mpr hex)]
        omega
      · rw [if_neg hex, if_neg (fun h => hex (hiff.mp h))]
        omega

/-- Partitioning a weighted sum over a predicate that holds exactly on the
splits of one of a list of pairwise-distinct accounts. -/
theorem wsum_filter_partition (cs : List Ac) (w : Split → Int)
    (q : Split → Bool)
    (hq : ∀ s : Split, q s = true ↔ ∃ c ∈ cs, s.ac = c.id)
    (hnd : (cs.map Ac.id).Nodup) :
    ∀ l : List Split,
      wsum w (l.filter q)
        = (cs.map (fun c =>
            wsum w (l.filter (fun s => s.ac == c.id)))).sum := by
  intro l
  induction l with
  | nil =>
    simp [wsum]
  | cons s l ih =>
    have hmap : (cs.map (fun c =>
          wsum w ((s :: l).filter (fun s2 => s2.ac == c.id)))).sum
        = (cs.map (fun c =>
            (if s.ac = c.id then w s else 0)
              + wsum w (l.filter (fun s2 => s2.ac == c.id)))).sum := by
      congr 1
      apply List.map_congr_left
      intro c _
      rw [List.filter_cons]
      by_cases hc : s.ac = c.id
      · rw [if_pos (by simp [hc] : (s.ac == c.id) = true), wsum_cons,
          if_pos hc]
      · rw [if_neg (by simp [hc] : ¬ ((s.ac == c.id) = true)), if_neg hc]
        omega
    rw [List.filter_cons, hmap, sum_map_add,
      sum_delta_nodup s.ac (w s) cs hnd]
    by_cases hqs : q s = true
    · rw [if_pos hqs, wsum_cons, ih, if_pos ((hq s).mp hqs)]
    · rw [if_neg hqs, ih, if_neg (fun h => hqs ((hq s).mpr h))]
      omega

/-- In a table with pairwise-distinct ids, looking up an existing row's id
finds that row. -/
theorem acById_self (L : Ledger) (P : Ac)
    (hid : (L.acs.map Ac.id).Nodup) (hmem : P ∈ L.acs) :
    acById L P.id = some P := by
  cases hfind : acById L P.id with
  | none =>
    exfalso
    exact List.find?_eq_none.mp hfind P hmem (by simp)
  | some a =>
    have hamem : a ∈ L.acs := List.mem_of_find?_eq_some hfind
    have haid : a.id = P.id := by
      have := List.find?_some hfind
      simpa using this
    have : a = P := List.inj_on_of_nodup_map hid hamem hmem haid
    rw [this]

/-- The queryset condition `ac__p_ac=self` of a parent's balance holds of
a split exactly when the split belongs to one of the children rows. -/
theorem parent_filter_pred (L : Ledger) (P : Ac)
    (hid : (L.acs.map Ac.id).Nodup) (s : Split) :
    (match acById L s.ac with
      | some sa => sa.p_ac == some P.id
      | none => false) = true
      ↔ ∃ c ∈ L.acs.filter (fun c => c.p_ac == some P.id), s.ac = c.id := by
  cases hfind : acById L s.ac with
  | none =>
    constructor
    · intro h
      exact absurd h (by simp)
    · rintro ⟨c, hc, he⟩
      exfalso
      have hcmem : c ∈ L.acs := (List.mem_filter.mp hc).1
      exact List.find?_eq_none.mp hfind c hcmem (by simp [he])
  | some sa =>
    have hsamem : sa ∈ L.acs := List.mem_of_find?_eq_some hfind
    have hsaid : sa.id = s.ac := by
      have := List.find?_some hfind
      simpa using this
    constructor
    · intro hp
      exact ⟨sa, List.mem_filter.mpr ⟨hsamem, hp⟩, hsaid.symm⟩
    · rintro ⟨c, hc, he⟩
      have hcmem : c ∈ L.acs := (List.mem_filter.mp hc).1
      have hcp : (c.p_ac == some P.id) = true := (List.mem_filter.mp hc).2
      have : sa = c :=
        List.inj_on_of_nodup_map hid hsamem hcmem (hsaid.trans he)
      rw [this]
      exact hcp

/-- Filtering preserves distinctness of the mapped ids. -/
theorem children_ids_nodup (L : Ledger) (p : Ac → Bool)
    (hid : (L.acs.map Ac.id).Nodup) :
    ((L.acs.filter p).map Ac.id).Nodup :=
  hid.sublist ((List.filter_sublist L.acs).map Ac.id)

/-- Two filters of the same list commute. -/
theorem filter_swap {α : Type _} (p q : α → Bool) (l : List α) :
    (l.filter p).filter q = (l.filter q).filter p := by
  induction l with
  | nil => rfl
  | cons a l ih =>
    cases hp : p a <;> cases hq : q a <;>
      simp [List.filter_cons, hp, hq, ih]

/-- The two sequential date filters equal one filter by the combined
predicate `dKeep`. -/
theorem dateFilter_eq_filter (L : Ledger) (sd ed : Option Nat)
    (l : List Split) :
    dateFilter L sd ed l = l.filter (dKeep L sd ed) := by
  cases sd with
  | none =>
    cases ed with
    | none =>
      show l = l.filter (dKeep L none none)
      have h : ∀ s ∈ l, dKeep L none none s = (fun _ => true) s :=
        fun s _ => rfl
      rw [List.filter_congr h, List.filter_true]
    | some d2 =>
      rfl
  | some d1 =>
    cases ed with
    | none =>
      show l.filter (fun s =>
          match txById L s.tx with
          | some tx => decide (d1 ≤ tx.tx_date)
          | none => false)
        = l.filter (dKeep L (some d1) none)
      apply List.filter_congr
      intro s _
      cases htx : txById L s.tx <;> simp [dKeep, htx]
    | some d2 =>
      show (l.filter (fun s =>
          match txById L s.tx with
          | some tx => decide (d1 ≤ tx.tx_date)
          | none => false)).filter (fun s =>
            match txById L s.tx with
            | some tx => decide (tx.tx_date ≤ d2)
            | none => false)
        = l.filter (dKeep L (some d1) (some d2))
      rw [List.filter_filter]
      apply List.filter_congr
      intro s _
      cases htx : txById L s.tx <;> simp [dKeep, htx, Bool.and_comm]

/-- The queryset of a parent account's balance. -/
theorem acSps_parent (L : Ledger) (P : Ac) (h : is_parent L P = true) :
    acSps L P = L.sps.filter (fun s =>
      match acById L s.ac with
      | some sa => sa.p_ac == some P.id
      | none => false) := by
  simp [acSps, h]

/-- The queryset of a non-parent (standalone or child) account's
balance: its own splits. -/
theorem acSps_nonparent (L : Ledger) (a : Ac) (h : is_parent L a = false) :
    acSps L a = L.sps.filter (fun s => s.ac == a.id) := by
  simp [acSps, h]

/-- Shared refinement lemma: `bal` computes exactly the spec's
sign-convention record from the selected splits' totals. -/
theorem bal_eq_specBal (L : Ledger) (a : Ac) (c : Category)
    (h : acCat L a = some c) (sd ed : Option Nat) :
    bal L a sd ed = some (specBal c
      (sideSum (dateFilter L sd ed (acSps L a)) TSp.dr)
      (sideSum (dateFilter L sd ed (acSps L a)) TSp.cr)) := by
  cases c <;> simp [bal, specBal, h, sumSide_getD]

/-- The `total_debit` field of the spec record. -/
theorem specBal_total_debit (c : Category) (td tc : Int) :
    (specBal c td tc).total_debit = td := by
  cases c <;> rfl

/-- The `total_credit` field of the spec record. -/
theorem specBal_total_credit (c : Category) (td tc : Int) :
    (specBal c td tc).total_credit = tc := by
  cases c <;> rfl

/-- The `net_balance` field of the spec record, by normality class. -/
theorem specBal_net_balance (c : Category) (td tc : Int) :
    (specBal c td tc).net_balance
      = (match c with
        | Category.AS | Category.EX => td - tc
        | Category.LI | Category.IN => tc - td) := by
  cases c <;> rfl

/-- The net fields of the spec record only depend on the category and the
difference of the totals. -/
theorem specBal_net_eq (c : Category) (td1 tc1 td2 tc2 : Int)
    (h : td1 - tc1 = td2 - tc2) :
    (specBal c td1 tc1).net_balance = (specBal c td2 tc2).net_balance ∧
      (specBal c td1 tc1).net_debit = (specBal c td2 tc2).net_debit ∧
      (specBal c td1 tc1).net_credit = (specBal c td2 tc2).net_credit := by
  have h2 : tc1 - td1 = tc2 - td2 := by omega
  cases c <;> simp [specBal, h, h2]

/-- A parent's side total over any date range is the sum of its
children's side totals over the same range. -/
theorem parent_totals_sum (L : Ledger) (P : Ac)
    (hid : (L.acs.map Ac.id).Nodup) (hpar : is_parent L P = true)
    (sd ed : Option Nat) (side : TSp) :
    sideSum (dateFilter L sd ed (acSps L P)) side
      = ((L.acs.filter (fun c => c.p_ac == some P.id)).map
          (fun c => sideSum (dateFilter L sd ed (acSps L c)) side)).sum := by
  rw [acSps_parent L P hpar, dateFilter_eq_filter, filter_swap,
    sideSum_eq_wsum,
    wsum_filter_partition (L.acs.filter (fun c => c.p_ac == some P.id))
      (wSide side) _ (parent_filter_pred L P hid)
      (children_ids_nodup L _ hid)]
  congr 1
  apply List.map_congr_left
  intro c hc
  have hcp : (c.p_ac == some P.id) = true := (List.mem_filter.mp hc).2
  have hnone : c.p_ac.isNone = false := by
    cases hcpo : c.p_ac with
    | none => rw [hcpo] at hcp; exact absurd hcp (by simp)
    | some pid => simp
  have hnp : is_parent L c = false := by
    simp [is_parent, hnone]
  rw [acSps_nonparent L c hnp, dateFilter_eq_filter, filter_swap,
    sideSum_eq_wsum]

/-- C7 fails componentwise on the code: in `ledgerPar` the parent's
balance is `{0, 0, 0, 10, 10}` while the componentwise sum of its two
children's balances (`{10, 10, 0, 10, 0}` and `{-10, 0, 10, 0, 10}`) is
`{0, 10, 10, 10, 10}` — the `net_debit`/`net_credit` fields do not add. -/
theorem c7_counterexample :
    bal ledgerPar acChild1 none none = some ⟨10, 10, 0, 10, 0⟩ ∧
      bal ledgerPar acChild2 none none = some ⟨-10, 0, 10, 0, 10⟩ ∧
      bal ledgerPar acPar none none = some ⟨0, 0, 0, 10, 10⟩ ∧
      bal ledgerPar acPar none none
        ≠ some (addBal ⟨10, 10, 0, 10, 0⟩ ⟨-10, 0, 10, 0, 10⟩) := by
  refine ⟨by decide, by decide, by decide, by decide⟩

/-- C7 (amended): a Root-Parent's balance aggregates over the splits of
all its children and never over its own splits, for any date range; its
`total_debit`, `total_credit` and `net_balance` equal the sums of the
corresponding fields of its children's balances (`net_debit`/`net_credit`
are recomputed from the summed net, not added componentwise); Standalone
and Child accounts aggregate their own splits directly; and both date
bounds are inclusive filters on the transaction date when given. -/
theorem c7_parent_balance_aggregates_children (L : Ledger) (P : Ac)
    (hid : (L.acs.map Ac.id).Nodup) (hmem : P ∈ L.acs)
    (hpar : is_parent L P = true)
    (hcats : ∀ c ∈ L.acs, c.p_ac = some P.id → c.cat = none)
    (sd ed : Option Nat) :
    ∃ (bP : BalRec) (bcs : List BalRec),
      bal L P sd ed = some bP ∧
      (L.acs.filter (fun c => c.p_ac == some P.id)).map
          (fun c => bal L c sd ed) = bcs.map some ∧
      bP.total_debit = (bcs.map BalRec.total_debit).sum ∧
      bP.total_credit = (bcs.map BalRec.total_credit).sum ∧
      bP.net_balance = (bcs.map BalRec.net_balance).sum ∧
      (∀ a : Ac, is_parent L a = false →
        acSps L a = L.sps.filter (fun s => s.ac == a.id)) ∧
      (∀ (s : Split) (d1 d2 : Nat) (tx : Transaction),
        txById L s.tx = some tx →
        dKeep L (some d1) (some d2) s
          = (decide (d1 ≤ tx.tx_date) && decide (tx.tx_date ≤ d2))) := by
  have h0 := hpar
  rw [is_parent, Bool.and_eq_true] at h0
  obtain ⟨h01, hch⟩ := h0
  rw [Bool.and_eq_true] at h01
  obtain ⟨hcat, hpn⟩ := h01
  obtain ⟨cP, hcP⟩ := Option.isSome_iff_exists.mp hcat
  have hpnone : P.p_ac = none := Option.isNone_iff_eq_none.mp hpn
  have hPnc : is_child P = false := by
    simp [is_child, hpnone]
  have hacP : acCat L P = some cP := by
    simp [acCat, hPnc, hcP]
  have hcfacts : ∀ c ∈ L.acs.filter (fun c => c.p_ac == some P.id),
      is_parent L c = false ∧ acCat L c = some cP := by
    intro c hc
    have hcmem : c ∈ L.acs := (List.mem_filter.mp hc).1
    have hcpb : (c.p_ac == some P.id) = true := (List.mem_filter.mp hc).2
    have hcp : c.p_ac = some P.id := by
      simpa using hcpb
    have hccat : c.cat = none := hcats c hcmem hcp
    have hchild : is_child c = true := by
      simp [is_child, hcp, hccat]
    constructor
    · simp [is_parent, hcp]
    · simp [acCat, hchild, hcp, acById_self L P hid hmem, hcP]
  have hbalc : ∀ c ∈ L.acs.filter (fun c => c.p_ac == some P.id),
      bal L c sd ed = some (specBal cP
        (sideSum (dateFilter L sd ed (acSps L c)) TSp.dr)
        (sideSum (dateFilter L sd ed (acSps L c)) TSp.cr)) :=
    fun c hc => bal_eq_specBal L c cP ((hcfacts c hc).2) sd ed
  refine ⟨specBal cP
      (sideSum (dateFilter L sd ed (acSps L P)) TSp.dr)
      (sideSum (dateFilter L sd ed (acSps L P)) TSp.cr),
    (L.acs.filter (fun c => c.p_ac == some P.id)).map (fun c => specBal cP
      (sideSum (dateFilter L sd ed (acSps L c)) TSp.dr)
      (sideSum (dateFilter L sd ed (acSps L c)) TSp.cr)),
    bal_eq_specBal L P cP hacP sd ed, ?_, ?_, ?_, ?_, ?_, ?_⟩
  · rw [List.map_map]
    apply List.map_congr_left
    intro c hc
    exact hbalc c hc
  · rw [specBal_total_debit, List.map_map,
      parent_totals_sum L P hid hpar sd ed TSp.dr]
    congr 1
    apply List.map_congr_left
    intro c _
    simp [Function.comp, specBal_total_debit]
  · rw [specBal_total_credit, List.map_map,
      parent_totals_sum L P hid hpar sd ed TSp.cr]
    congr 1
    apply List.map_congr_left
    intro c _
    simp [Function.comp, specBal_total_credit]
  · rw [List.map_map]
    cases cP with
    | AS =>
      rw [show (specBal Category.AS
            (sideSum (dateFilter L sd ed (acSps L P)) TSp.dr)
            (sideSum (dateFilter L sd ed (acSps L P)) TSp.cr)).net_balance
          = sideSum (dateFilter L sd ed (acSps L P)) TSp.dr
            - sideSum (dateFilter L sd ed (acSps L P)) TSp.cr from rfl,
        parent_totals_sum L P hid hpar sd ed TSp.dr,
        parent_totals_sum L P hid hpar sd ed TSp.cr, ← sum_map_sub]
      rfl
    | EX =>
      rw [show (specBal Category.EX
            (sideSum (dateFilter L sd ed (acSps L P)) TSp.dr)
            (sideSum (dateFilter L sd ed (acSps L P)) TSp.cr)).net_balance
          = sideSum (dateFilter L sd ed (acSps L P)) TSp.dr
            - sideSum (dateFilter L sd ed (acSps L P)) TSp.cr from rfl,
        parent_totals_sum L P hid hpar sd ed TSp.dr,
        parent_totals_sum L P hid hpar sd ed TSp.cr, ← sum_map_sub]
      rfl
    | LI =>
      rw [show (specBal Category.LI
            (sideSum (dateFilter L sd ed (acSps L P)) TSp.dr)
            (sideSum (dateFilter L sd ed (acSps L P)) TSp.cr)).net_balance
          = sideSum (dateFilter L sd ed (acSps L P)) TSp.cr
            - sideSum (dateFilter L sd ed (acSps L P)) TSp.dr from rfl,
        parent_totals_sum L P hid hpar sd ed TSp.cr,
        parent_totals_sum L P hid hpar sd ed TSp.dr, ← sum_map_sub]
      rfl
    | IN =>
      rw [show (specBal Category.IN
            (sideSum (dateFilter L sd ed (acSps L P)) TSp.dr)
            (sideSum (dateFilter L sd ed (acSps L P)) TSp.cr)).net_balance
          = sideSum (dateFilter L sd ed (acSps L P)) TSp.cr
            - sideSum (dateFilter L sd ed (acSps L P)) TSp.dr from rfl,
        parent_totals_sum L P hid hpar sd ed TSp.cr,
        parent_totals_sum L P hid hpar sd ed TSp.dr, ← sum_map_sub]
      rfl
  · intro a ha
    exact acSps_nonparent L a ha
  · intro s d1 d2 tx htx
    simp [dKeep, htx]

/-- Witness for C7 at `ledgerPar`: the hypotheses hold by evaluation and
the amended aggregation conclusion follows at that ledger. -/
theorem c7_parent_balance_witness :
    ((ledgerPar.acs.map Ac.id).Nodup ∧ acPar ∈ ledgerPar.acs ∧
      is_parent ledgerPar acPar = true ∧
      (∀ c ∈ ledgerPar.acs, c.p_ac = some acPar.id → c.cat = none)) ∧
    (∃ (bP : BalRec) (bcs : List BalRec),
      bal ledgerPar acPar none none = some bP ∧
      (ledgerPar.acs.filter (fun c => c.p_ac == some acPar.id)).map
          (fun c => bal ledgerPar c none none) = bcs.map some ∧
      bP.total_debit = (bcs.map BalRec.total_debit).sum ∧
      bP.total_credit = (bcs.map BalRec.total_credit).sum ∧
      bP.net_balance = (bcs.map BalRec.net_balance).sum ∧
      (∀ a : Ac, is_parent ledgerPar a = false →
        acSps ledgerPar a = ledgerPar.sps.filter (fun s => s.ac == a.id)) ∧
      (∀ (s : Split) (d1 d2 : Nat) (tx : Transaction),
        txById ledgerPar s.tx = some tx →
        dKeep ledgerPar (some d1) (some d2) s
          = (decide (d1 ≤ tx.tx_date) && decide (tx.tx_date ≤ d2)))) :=
  ⟨⟨by decide, by decide, by decide, by decide⟩,
    c7_parent_balance_aggregates_children ledgerPar acPar (by decide)
      (by decide) (by decide) (by decide) none none⟩

/-! Lemmas for C8 (transaction reversal). -/

/-- Split validation only reads the account table, so it is unaffected by
split or transaction inserts. -/
theorem raise_exceptions_split_acs (L1 L2 : Ledger) (h : L1.acs = L2.acs)
    (s : Split) :
    raise_exceptions_split L1 s = raise_exceptions_split L2 s := by
  simp [raise_exceptions_split, acById, is_parent, hasChildren, h]

/-- When every reversing split passes validation, the creation loop
appends exactly the mirrored splits. -/
theorem createSplits_ok (nid : Nat) :
    ∀ (l : List Split) (L0 L1 : Ledger), L1.acs = L0.acs →
      (∀ s ∈ l, raise_exceptions_split L0 (mirror_split nid s)
        = Except.ok ()) →
      createSplits L1 l nid
        = Except.ok { L1 with sps := L1.sps ++ l.map (mirror_split nid) } := by
  intro l
  induction l with
  | nil =>
    intro L0 L1 _ _
    simp [createSplits]
  | cons s rest ih =>
    intro L0 L1 hacs hok
    have h1 : raise_exceptions_split L1 (mirror_split nid s)
        = Except.ok () := by
      rw [raise_exceptions_split_acs L1 L0 hacs]
      exact hok s (List.mem_cons_self s rest)
    simp only [createSplits, h1]
    rw [ih L0 { L1 with sps := L1.sps ++ [mirror_split nid s] } hacs
      (fun s2 hs2 => hok s2 (List.mem_cons_of_mem s hs2))]
    simp [List.append_assoc]

/-- When no split of the transaction targets a parent account, the atomic
revert block succeeds and produces exactly the new transaction plus the
mirrored splits appended to the split table. -/
theorem revert_transaction_ok (L : Ledger) (t : Transaction) (today : Nat)
    (hok : ∀ s ∈ txSplits L t, ∀ a : Ac,
      acById L s.ac = some a → is_parent L a = false) :
    revert_transaction L t today
      = Except.ok
          ({ L with
              txs := L.txs ++ [⟨freshTxId L, today, "Revert: " ++ t.desc⟩],
              sps := L.sps
                ++ (txSplits L t).map (mirror_split (freshTxId L)) },
            ⟨freshTxId L, today, "Revert: " ++ t.desc⟩) := by
  have hval : ∀ s ∈ txSplits L t,
      raise_exceptions_split L (mirror_split (freshTxId L) s)
        = Except.ok () := by
    intro s hs
    have hac : (mirror_split (freshTxId L) s).ac = s.ac := rfl
    unfold raise_exceptions_split
    rw [hac]
    cases hfind : acById L s.ac with
    | none => rfl
    | some a => simp [hok s hs a hfind]
  have hcs := createSplits_ok (freshTxId L) (txSplits L t) L
    { L with txs := L.txs ++ [⟨freshTxId L, today, "Revert: " ++ t.desc⟩] }
    rfl hval
  show (match createSplits
      { L with txs := L.txs ++ [⟨freshTxId L, today, "Revert: " ++ t.desc⟩] }
      (txSplits L t) (freshTxId L) with
    | Except.ok L2 =>
      Except.ok (L2, (⟨freshTxId L, today, "Revert: " ++ t.desc⟩ : Transaction))
    | Except.error e => Except.error e)
      = Except.ok
          ({ L with
              txs := L.txs ++ [⟨freshTxId L, today, "Revert: " ++ t.desc⟩],
              sps := L.sps
                ++ (txSplits L t).map (mirror_split (freshTxId L)) },
            ⟨freshTxId L, today, "Revert: " ++ t.desc⟩)
  rw [hcs]

/-- The mirror weight identity: the debit weight of a mirrored split is
the credit weight of the original, and conversely. -/
theorem wAcSide_mirror (i nid : Nat) (side : TSp) (s : Split) :
    wAcSide i side (mirror_split nid s) = wAcSide i (opposite side) s := by
  cases hs : s.t_sp <;> cases side <;>
    simp [wAcSide, wSide, mirror_split, opposite, hs]

/-- Weighted sums over a mapped list via a pointwise weight identity. -/
theorem wsum_map_pointwise {f : Split → Split} {w1 w2 : Split → Int}
    (h : ∀ s, w1 (f s) = w2 s) (l : List Split) :
    wsum w1 (l.map f) = wsum w2 l := by
  simp only [wsum, List.map_map]
  congr 1
  apply List.map_congr_left
  intro s _
  exact h s

/-- The mirrored side of a split is the opposite side. -/
theorem mirror_t_sp (nid : Nat) (s : Split) :
    (mirror_split nid s).t_sp = opposite s.t_sp := by
  cases hs : s.t_sp <;> simp [mirror_split, opposite, hs]

/-- After appending the mirrored splits of a transaction, every
non-parent account with a category has the same net balance (and net
debit/credit) as in the pre-transaction ledger: each original split and
its mirror cancel in the net. -/
theorem bal_after_mirrors (L : Ledger) (t : Transaction) (nid : Nat)
    (txs2 : List Transaction) (a : Ac) (c : Category)
    (hnp : is_parent L a = false) (hcat : acCat L a = some c) :
    ∃ b2 b0 : BalRec,
      bal ⟨L.acs, txs2, L.sps ++ (txSplits L t).map (mirror_split nid)⟩ a
          none none = some b2 ∧
      bal (removeTx L t) a none none = some b0 ∧
      b2.net_balance = b0.net_balance ∧
      b2.net_debit = b0.net_debit ∧
      b2.net_credit = b0.net_credit := by
  have hnp2 : is_parent
      ⟨L.acs, txs2, L.sps ++ (txSplits L t).map (mirror_split nid)⟩ a
        = false := hnp
  have hcat2 : acCat
      ⟨L.acs, txs2, L.sps ++ (txSplits L t).map (mirror_split nid)⟩ a
        = some c := hcat
  have hnp0 : is_parent (removeTx L t) a = false := hnp
  have hcat0 : acCat (removeTx L t) a = some c := hcat
  have hb2 := bal_eq_specBal
    ⟨L.acs, txs2, L.sps ++ (txSplits L t).map (mirror_split nid)⟩ a c
    hcat2 none none
  have hb0 := bal_eq_specBal (removeTx L t) a c hcat0 none none
  have h2side : ∀ side : TSp,
      sideSum (dateFilter
        ⟨L.acs, txs2, L.sps ++ (txSplits L t).map (mirror_split nid)⟩
        none none (acSps
          ⟨L.acs, txs2, L.sps ++ (txSplits L t).map (mirror_split nid)⟩ a))
        side
      = wsum (wAcSide a.id side)
          (L.sps ++ (txSplits L t).map (mirror_split nid)) := by
    intro side
    rw [show dateFilter
        ⟨L.acs, txs2, L.sps ++ (txSplits L t).map (mirror_split nid)⟩
        none none (acSps
          ⟨L.acs, txs2, L.sps ++ (txSplits L t).map (mirror_split nid)⟩ a)
      = acSps
          ⟨L.acs, txs2, L.sps ++ (txSplits L t).map (mirror_split nid)⟩ a
      from rfl,
      acSps_nonparent _ a hnp2, sideSum_filter_ac]
  have h0side : ∀ side : TSp,
      sideSum (dateFilter (removeTx L t) none none
        (acSps (removeTx L t) a)) side
      = wsum (wAcSide a.id side) ((removeTx L t).sps) := by
    intro side
    rw [show dateFilter (removeTx L t) none none (acSps (removeTx L t) a)
      = acSps (removeTx L t) a from rfl,
      acSps_nonparent _ a hnp0, sideSum_filter_ac]
  have hsplit : ∀ w : Split → Int,
      wsum w L.sps = wsum w (txSplits L t) + wsum w ((removeTx L t).sps) :=
    fun w => wsum_split_pred (fun s => s.tx == t.id) w L.sps
  have hmir : ∀ side : TSp,
      wsum (wAcSide a.id side) ((txSplits L t).map (mirror_split nid))
        = wsum (wAcSide a.id (opposite side)) (txSplits L t) :=
    fun side =>
      wsum_map_pointwise (fun s => wAcSide_mirror a.id nid side s) _
  have key :
      sideSum (dateFilter
        ⟨L.acs, txs2, L.sps ++ (txSplits L t).map (mirror_split nid)⟩
        none none (acSps
          ⟨L.acs, txs2, L.sps ++ (txSplits L t).map (mirror_split nid)⟩ a))
        TSp.dr
      - sideSum (dateFilter
          ⟨L.acs, txs2, L.sps ++ (txSplits L t).map (mirror_split nid)⟩
          none none (acSps
            ⟨L.acs, txs2, L.sps ++ (txSplits L t).map (mirror_split nid)⟩ a))
          TSp.cr
      = sideSum (dateFilter (removeTx L t) none none
          (acSps (removeTx L t) a)) TSp.dr
        - sideSum (dateFilter (removeTx L t) none none
            (acSps (removeTx L t) a)) TSp.cr := by
    rw [h2side TSp.dr, h2side TSp.cr, h0side TSp.dr, h0side TSp.cr,
      wsum_append, wsum_append, hmir TSp.dr, hmir TSp.cr,
      hsplit (wAcSide a.id TSp.dr), hsplit (wAcSide a.id TSp.cr)]
    simp only [opposite]
    omega
  obtain ⟨hnb, hnd, hnc⟩ := specBal_net_eq c _ _ _ _ key
  exact ⟨_, _, hb2, hb0, hnb, hnd, hnc⟩

/-- C8 fails on the code as stated: after reverting `txOrig` in
`ledgerRev` (a debit of 100 on `acRevA`), the touched account's balance
is `{0, 0, 0, 100, 100}` while its pre-transaction balance is
`{0, 0, 0, 0, 0}` — `total_debit`/`total_credit` do not return to their
pre-transaction values, only the net fields do. -/
theorem c8_counterexample :
    revert_transaction ledgerRev txOrig 5
        = Except.ok (ledgerRevPost, ⟨2, 5, "Revert: orig"⟩) ∧
      bal ledgerRevPost acRevA none none = some ⟨0, 0, 0, 100, 100⟩ ∧
      bal (removeTx ledgerRev txOrig) acRevA none none
        = some ⟨0, 0, 0, 0, 0⟩ ∧
      bal ledgerRevPost acRevA none none
        ≠ bal (removeTx ledgerRev txOrig) acRevA none none := by
  refine ⟨by rfl, by decide, by decide, by decide⟩

/-- C8 (amended): when no split of the transaction targets a parent
account, `revert_transaction` atomically produces a new transaction
whose splits mirror the original's — same account, same amount, opposite
side — appended in one step to the split table (an error instead leaves
the ledger unchanged, since the whole block is rolled back); and for
every non-parent account with a category — in particular every touched
account — the `net_balance`, `net_debit` and `net_credit` of its balance
after both transactions equal their pre-transaction values, while
`total_debit`/`total_credit` grow by the reverted gross amounts, so the
full balance dictionary is not restored. -/
theorem c8_revert_mirrors_and_restores_net (L : Ledger) (t : Transaction)
    (today : Nat)
    (hok : ∀ s ∈ txSplits L t, ∀ a : Ac,
      acById L s.ac = some a → is_parent L a = false) :
    ∃ (L2 : Ledger) (rt : Transaction),
      revert_transaction L t today = Except.ok (L2, rt) ∧
      L2.acs = L.acs ∧
      L2.sps = L.sps ++ (txSplits L t).map (mirror_split rt.id) ∧
      (∀ s ∈ txSplits L t,
        mirror_split rt.id s ∈ L2.sps ∧
        (mirror_split rt.id s).tx = rt.id ∧
        (mirror_split rt.id s).ac = s.ac ∧
        (mirror_split rt.id s).am = s.am ∧
        (mirror_split rt.id s).t_sp = opposite s.t_sp) ∧
      (∀ (a : Ac) (c : Category),
        is_parent L a = false → acCat L a = some c →
        ∃ b2 b0 : BalRec,
          bal L2 a none none = some b2 ∧
          bal (removeTx L t) a none none = some b0 ∧
          b2.net_balance = b0.net_balance ∧
          b2.net_debit = b0.net_debit ∧
          b2.net_credit = b0.net_credit) := by
  refine ⟨{ L with
      txs := L.txs ++ [⟨freshTxId L, today, "Revert: " ++ t.desc⟩],
      sps := L.sps ++ (txSplits L t).map (mirror_split (freshTxId L)) },
    ⟨freshTxId L, today, "Revert: " ++ t.desc⟩,
    revert_transaction_ok L t today hok, rfl, rfl, ?_, ?_⟩
  · intro s hs
    exact ⟨List.mem_append_right _ (List.mem_map_of_mem _ hs),
      rfl, rfl, rfl, mirror_t_sp _ s⟩
  · intro a c hnp hcat
    exact bal_after_mirrors L t (freshTxId L)
      (L.txs ++ [⟨freshTxId L, today, "Revert: " ++ t.desc⟩]) a c hnp hcat

/-- Witness for C8 at `ledgerRev`: the no-parent-target hypothesis holds
by evaluation and the amended conclusion follows at that ledger. -/
theorem c8_revert_witness :
    (∀ s ∈ txSplits ledgerRev txOrig, ∀ a : Ac,
      acById ledgerRev s.ac = some a → is_parent ledgerRev a = false) ∧
    (∃ (L2 : Ledger) (rt : Transaction),
      revert_transaction ledgerRev txOrig 5 = Except.ok (L2, rt) ∧
      L2.acs = ledgerRev.acs ∧
      L2.sps = ledgerRev.sps
        ++ (txSplits ledgerRev txOrig).map (mirror_split rt.id) ∧
      (∀ s ∈ txSplits ledgerRev txOrig,
        mirror_split rt.id s ∈ L2.sps ∧
        (mirror_split rt.id s).tx = rt.id ∧
        (mirror_split rt.id s).ac = s.ac ∧
        (mirror_split rt.id s).am = s.am ∧
        (mirror_split rt.id s).t_sp = opposite s.t_sp) ∧
      (∀ (a : Ac) (c : Category),
        is_parent ledgerRev a = false → acCat ledgerRev a = some c →
        ∃ b2 b0 : BalRec,
          bal L2 a none none = some b2 ∧
          bal (removeTx ledgerRev txOrig) a none none = some b0 ∧
          b2.net_balance = b0.net_balance ∧
          b2.net_debit = b0.net_debit ∧
          b2.net_credit = b0.net_credit)) :=
  ⟨by decide,
    c8_revert_mirrors_and_restores_net ledgerRev txOrig 5 (by decide)⟩
